import Mathlib

/-!
Verification of the check/fix orchestration engine of the `devutils`
command-line tool (license-header, lint and format subsystems).

The Lean definitions below are a shallow embedding of the Python sources:

* `src/devutils/src/devutils/utils/file_checking/file_status.py`
* `src/devutils/src/devutils/utils/file_checking/file_result.py`
* `src/devutils/src/devutils/utils/file_checking/statistics.py`
* `src/devutils/src/devutils/utils/file_checking/utils.py`
* `src/devutils/src/devutils/utils/filesystem.py`
* `src/devutils/src/devutils/commands/lint.py`
* `src/devutils/src/devutils/commands/check_license_headers.py`

External effects (subprocess invocations, `stat` calls, file reads) are
passed in explicitly as values describing their outcome; fallible Python
code is modelled with `Except`/`Option`.
-/

set_option autoImplicit false

namespace Devutils

/-- The `FileStatus` enum exactly as declared in
`utils/file_checking/file_status.py`: members `OK`, `ISSUE`, `ERROR`,
`UNKNOWN`.  Note that the enum declares **no** `WARNING` member, although
`commands/lint.py` and `utils/file_checking/statistics.py` refer to
`FileStatus.WARNING`. -/
inductive FileStatus where
  | ok
  | issue
  | error
  | unknown
  deriving DecidableEq, Repr

/-- In Python, evaluating the attribute access `FileStatus.WARNING` raises
`AttributeError("WARNING")` because the enum in `file_status.py` has no
such member; `str` of that exception is the string `"WARNING"`.  We model
the evaluation of this expression as a failing computation carrying that
exception text. -/
def fileStatusWARNING : Except String FileStatus :=
  Except.error "WARNING"

/-- The `FileResult` dataclass from `utils/file_checking/file_result.py`:
a path, a status and an optional diagnostic message (field `error`). -/
structure FileResult where
  path : String
  status : FileStatus
  error : Option String := none
  deriving DecidableEq, Repr

/-- Outcome of a completed subprocess (`subprocess.run` with
`check=False`): exit code, captured stdout and stderr. -/
structure ProcResult where
  returncode : Int
  stdout : String
  stderr : String
  deriving DecidableEq, Repr

/-- A tool invocation either completes with a `ProcResult` or raises an
exception whose text is the `String`. -/
abbrev ProcOutcome := Except String ProcResult

/-- Tests whether `pat` is a prefix of `s` (on character lists). -/
def listStartsWith : List Char → List Char → Bool
  | [], _ => true
  | _ :: _, [] => false
  | p :: ps, c :: cs => p = c && listStartsWith ps cs

/-- Tests whether `pat` occurs somewhere inside `s` (on character lists). -/
def listContainsSub (s pat : List Char) : Bool :=
  match s with
  | [] => listStartsWith pat []
  | _ :: rest => listStartsWith pat s || listContainsSub rest pat

/-- Python `in` on strings: substring containment (`pat in s`). -/
def containsSub (s pat : String) : Bool :=
  listContainsSub s.toList pat.toList

/-- Python `str.lower()`. -/
def pyLower (s : String) : String :=
  String.mk (s.toList.map Char.toLower)

/-- Python `str.strip()`: remove surrounding whitespace. -/
def pyStrip (s : String) : String :=
  s.trim

/-- The `LintStep` dataclass from `commands/lint.py`. -/
structure LintStep where
  tool_name : String
  check_args : List String
  fix_args : List String
  can_fix : Bool := true
  package_level : Bool := false
  deriving DecidableEq, Repr

/-- Association-list lookup used to model Python `dict.get`. -/
def alookup {β : Type} (l : List (String × β)) (k : String) : Option β :=
  match l with
  | [] => none
  | (k', v) :: rest => if k' = k then some v else alookup rest k

/-- The per-run `package_level_results` store of `LintCacheManager`:
maps a package cache key `"<config>:<tool>"` to the per-file result map
computed by `run_package_level_lint`. -/
abbrev PkgStore := List (String × List (String × FileResult))

/-- Embedding of `LintCacheManager.get_package_result` (`commands/lint.py` lines
143-148): fetch the stored per-file map for the key; Python's
`if results:` treats an empty dict as absent. -/
def get_package_result (store : PkgStore) (cacheKey filePath : String) :
    Option FileResult :=
  match alookup store cacheKey with
  | none => none
  | some results => if results = [] then none else alookup results filePath

/-- Embedding of `check_file_lint` (`commands/lint.py` lines 333-377), as a function of
the subprocess outcome.  For a package-level step it only consults the
precomputed package store (lines 339-345).  For a per-file step it
classifies exit code and combined `stdout + stderr`.  The two branches
that execute `FileStatus.WARNING` raise `AttributeError("WARNING")`,
which the surrounding `except Exception` handler (line 376) converts to
an ERROR result whose diagnostic is `str(e) = "WARNING"`. -/
def check_file_lint (filePath : String) (step : LintStep)
    (configName : String) (store : PkgStore) (proc : ProcOutcome) :
    FileResult :=
  if step.package_level then
    match get_package_result store (configName ++ ":" ++ step.tool_name) filePath with
    | some r => r
    | none => ⟨filePath, .error, some "Package-level linting not run"⟩
  else
    match proc with
    | .error e => ⟨filePath, .error, some e⟩
    | .ok r =>
      let output := r.stdout ++ r.stderr
      let ol := pyLower output
      if r.returncode = 0 then
        if containsSub ol "warning:" || containsSub ol "note:" then
          ⟨filePath, .error, some "WARNING"⟩
        else
          ⟨filePath, .ok, none⟩
      else
        if containsSub ol "error:" || containsSub ol "traceback" ||
            containsSub ol "assertion" then
          ⟨filePath, .error, some (pyStrip output)⟩
        else if containsSub ol "warning:" || containsSub ol "note:" then
          ⟨filePath, .error, some "WARNING"⟩
        else
          ⟨filePath, .issue, some (pyStrip output)⟩

/-- A sample per-file lint step (shape of the `clang-tidy` step in
`get_language_configs`). -/
def tidyStep : LintStep :=
  { tool_name := "clang-tidy", check_args := [], fix_args := [], can_fix := true,
    package_level := false }

/-- A sample package-level lint step (shape of the `mypy` step in
`get_language_configs`). -/
def mypyStep : LintStep :=
  { tool_name := "mypy", check_args := [], fix_args := [], can_fix := false,
    package_level := true }

/-- Python `str.replace("\\", "/")`. -/
def pyNormalizeSlashes (s : String) : String :=
  String.mk (s.toList.map (fun c => if c = '\\' then '/' else c))

instance {ε α : Type} [DecidableEq ε] [DecidableEq α] : DecidableEq (Except ε α) :=
  fun x y =>
    match x, y with
    | .error a, .error b =>
      if h : a = b then .isTrue (congrArg Except.error h)
      else .isFalse (fun hc => h (Except.error.inj hc))
    | .ok a, .ok b =>
      if h : a = b then .isTrue (congrArg Except.ok h)
      else .isFalse (fun hc => h (Except.ok.inj hc))
    | .error _, .ok _ => .isFalse (fun hc => Except.noConfusion hc)
    | .ok _, .error _ => .isFalse (fun hc => Except.noConfusion hc)

/-- Worker for Python `str.split("\n")`: structural recursion over the
characters, separators not kept. -/
def pySplitNlAux : List Char → List Char → List String
  | [], acc => [String.mk acc.reverse]
  | c :: cs, acc =>
    if c = '\n' then String.mk acc.reverse :: pySplitNlAux cs []
    else pySplitNlAux cs (c :: acc)

/-- Python `output.split("\n")`. -/
def pySplitNl (s : String) : List String :=
  pySplitNlAux s.toList []

/-- Python `"\n".join(lines)`. -/
def joinWithNl : List String → String
  | [] => ""
  | [x] => x
  | x :: xs => x ++ "\n" ++ joinWithNl xs

/-- The per-file classification body of the loop in
`run_package_level_lint` (`commands/lint.py` lines 297-321), for one file,
given the combined output and the exit code.  `format_file_path` is the
identity here because we model file paths as already relative to the
project root.  Note two faithful details: `"traceback"` and `"assertion"`
are searched in the **whole** lowered output while `"error:"` and the
warning markers are searched only in the lines mentioning the file; and
the branch assigning `FileStatus.WARNING` (line 317) raises
`AttributeError("WARNING")`, aborting the whole loop. -/
def classify_package_file (output : String) (returncode : Int) (fp : String) :
    Except String FileResult :=
  let fpNorm := pyNormalizeSlashes fp
  let ol := pyLower output
  let mention := containsSub output fp || containsSub output fpNorm
  if returncode = 0 then
    .ok ⟨fp, .ok, none⟩
  else if mention then
    let lines := pySplitNl output
    let fileLines := lines.filter (fun line => containsSub line fp || containsSub line fpNorm)
    let relevant := joinWithNl fileLines
    if containsSub (pyLower relevant) "error:" || containsSub ol "traceback" ||
        containsSub ol "assertion" then
      .ok ⟨fp, .error, some relevant⟩
    else if containsSub (pyLower relevant) "warning:" || containsSub (pyLower relevant) "note:" then
      .error "WARNING"
    else
      .ok ⟨fp, .issue, some relevant⟩
  else
    .ok ⟨fp, .ok, none⟩

/-- The `for file_path in files` loop of `run_package_level_lint`,
building the per-file result dict in file order; aborts (propagating the
exception) as soon as one file hits the `FileStatus.WARNING` branch. -/
def buildPkgResults (output : String) (returncode : Int) :
    List String → Except String (List (String × FileResult))
  | [] => .ok []
  | fp :: rest => do
    let r ← classify_package_file output returncode fp
    let rs ← buildPkgResults output returncode rest
    pure ((fp, r) :: rs)

/-- Embedding of `LintCacheManager.set_package_results`: stores (overwrites) the map
for a key; prepending wins in `alookup`, matching dict assignment. -/
def storeSet (store : PkgStore) (k : String) (v : List (String × FileResult)) : PkgStore :=
  (k, v) :: store

/-- The `except Exception` handler of `run_package_level_lint` (lines
325-330): it loops over the files and calls `set_package_results` with a
**singleton** dict each time, so each iteration overwrites the previous
one and only the last file's entry survives. -/
def pkgFallback (files : List String) : Option (List (String × FileResult)) :=
  match files.getLast? with
  | none => none
  | some l => some [(l, ⟨l, .error, some "Failed to run package-level linting"⟩)]

/-- Embedding of `run_package_level_lint` (`commands/lint.py` lines 268-330) as a
function of the subprocess outcome.  Returns the updated
`package_level_results` store and whether the tool was invoked; accessing
`files[0]` on an empty list raises `IndexError`. -/
def run_package_level_lint (files : List String) (step : LintStep)
    (configName : String) (store : PkgStore) (proc : ProcOutcome) :
    Except String (PkgStore × Bool) :=
  let key := configName ++ ":" ++ step.tool_name
  match files.head? with
  | none => .error "IndexError"
  | some f0 =>
    if (get_package_result store key f0).isSome then
      .ok (store, false)
    else
      match proc with
      | .error _ =>
        .ok (match pkgFallback files with
             | none => store
             | some m => storeSet store key m, true)
      | .ok r =>
        let output := r.stdout ++ r.stderr
        match buildPkgResults output r.returncode files with
        | .error _ =>
          .ok (match pkgFallback files with
               | none => store
               | some m => storeSet store key m, true)
        | .ok results => .ok (storeSet store key results, true)

/-- The package-level pre-run loop at the top of `check_files_parallel`
(`commands/lint.py` lines 482-484): every package-level step is run
synchronously before the thread pool starts.  Returns the resulting store
and the number of tool invocations performed.  `fix_files_parallel`
(lines 583-617) contains **no** such loop. -/
def pkg_prerun_phase (files : List String) (configName : String)
    (env : LintStep → ProcOutcome) :
    List LintStep → PkgStore → Except String (PkgStore × Nat)
  | [], store => .ok (store, 0)
  | st :: rest, store =>
    if st.package_level then do
      let (store', inv) ← run_package_level_lint files st configName store (env st)
      let (store'', n) ← pkg_prerun_phase files configName env rest store'
      pure (store'', (if inv then 1 else 0) + n)
    else
      pkg_prerun_phase files configName env rest store

/-- Python `if result.status == FileStatus.WARNING:` — comparing against
an attribute whose evaluation raises propagates the exception. -/
def pyStatusEq (s : FileStatus) (rhs : Except String FileStatus) : Except String Bool :=
  match rhs with
  | .error e => .error e
  | .ok v => .ok (s = v)

/-- Appends `f"[{tool}]\n{message}"` to the collected diagnostics when a
message is present (`error_messages.append(...)` in `lint.py`). -/
def tagMsg (tool : String) (msg : Option String) (msgs : List String) : List String :=
  match msg with
  | none => msgs
  | some m => msgs ++ ["[" ++ tool ++ "]\n" ++ m]

/-- Accumulator of the per-step loop in `check_single_file`
(`commands/lint.py` lines 409-412). -/
structure CheckAccum where
  file_has_warnings : Bool := false
  file_has_issues : Bool := false
  file_has_errors : Bool := false
  error_messages : List String := []
  deriving DecidableEq, Repr

/-- Classification of one step's result in `check_single_file` (lines
426-437).  The first comparison evaluates `FileStatus.WARNING`, which
raises `AttributeError("WARNING")`; `check_single_file` has no exception
handler, so the exception propagates to the orchestrator. -/
def check_step_classify (tool : String) (r : FileResult) (a : CheckAccum) :
    Except String CheckAccum := do
  let isW ← pyStatusEq r.status fileStatusWARNING
  if isW then
    pure { a with file_has_warnings := true,
                  error_messages := tagMsg tool r.error a.error_messages }
  else if r.status = .issue then
    pure { a with file_has_issues := true,
                  error_messages := tagMsg tool r.error a.error_messages }
  else if r.status = .error then
    pure { a with file_has_errors := true,
                  error_messages := tagMsg tool r.error a.error_messages }
  else
    pure a

/-- Embedding of `check_single_file` (`commands/lint.py` lines 403-473), abstracted
over the per-step obtained results (tool name together with the result
coming from the cache or from `check_file_lint`).  The loop classifies
each result and the epilogue (lines 439-446) combines the flags into the
final status; line 444 again mentions `FileStatus.WARNING`. -/
def check_single_file (stepResults : List (String × FileResult)) :
    Except String (FileStatus × List String) := do
  let a ← stepResults.foldlM
    (fun acc (p : String × FileResult) => check_step_classify p.1 p.2 acc) {}
  let final ←
    if a.file_has_errors then pure FileStatus.error
    else if a.file_has_issues then pure FileStatus.issue
    else if a.file_has_warnings then fileStatusWARNING
    else pure FileStatus.ok
  pure (final, a.error_messages)

/-- The `Statistics` dataclass from `utils/file_checking/statistics.py`
(counters only; the lock is a concurrency artefact). -/
structure Statistics where
  total : Nat := 0
  ok : Nat := 0
  warnings : Nat := 0
  issues : Nat := 0
  errors : Nat := 0
  fixed : Nat := 0
  skipped : Nat := 0
  deriving DecidableEq, Repr

/-- Embedding of `Statistics.has_failures` (statistics.py lines 67-68). -/
def Statistics.has_failures (s : Statistics) : Bool :=
  decide (s.issues > 0) || decide (s.errors > 0)

/-- Embedding of `Statistics.record_fix`. -/
def Statistics.record_fix (s : Statistics) (didFix : Bool) : Statistics :=
  if didFix then { s with fixed := s.fixed + 1 } else { s with skipped := s.skipped + 1 }

/-- Exit-code logic of `lint check` (`commands/lint.py` lines 649-661):
`sys.exit(1)` iff `stats.has_failures()`. -/
def check_exit_code (s : Statistics) : Nat :=
  if s.has_failures then 1 else 0

/-- Exit-code logic of `lint fix` (`commands/lint.py` lines 693-701):
exit 1 iff `stats.errors > 0`; both remaining branches exit 0. -/
def fix_exit_code (s : Statistics) : Nat :=
  if s.errors > 0 then 1 else if s.fixed > 0 then 0 else 0

/-- Embedding of `fix_file_lint` (`commands/lint.py` lines 380-400): reports success
purely by exit code; unfixable steps and exceptions report `False`. -/
def fix_file_lint (step : LintStep) (proc : ProcOutcome) : Bool :=
  if !step.can_fix then false
  else
    match proc with
    | .error _ => false
    | .ok r => r.returncode = 0

/-- Environment for one step of a `fix_single_file` work unit: the step
together with the outcomes of its check and fix subprocess invocations.
Cache misses are assumed (fresh files or `--no-cache`); a cache hit would
be served by `get_cached_result`, modelled separately. -/
structure FixStepEnv where
  step : LintStep
  checkProc : ProcOutcome
  fixProc : ProcOutcome

/-- Accumulator of the loop in `fix_single_file` (`commands/lint.py`
lines 515-518). -/
structure FixAccum where
  file_had_issues : Bool := false
  all_fixed : Bool := true
  file_has_errors : Bool := false
  error_messages : List String := []
  deriving DecidableEq, Repr

/-- The per-step loop of `fix_single_file` (`commands/lint.py` lines
521-550): ERROR breaks out of the loop; ISSUE attempts a fix when the
step can fix; other statuses are ignored.  (No branch of this loop
mentions `FileStatus.WARNING`, so it is total.) -/
def fix_single_file_loop (configName : String) (store : PkgStore) (filePath : String) :
    List FixStepEnv → FixAccum → FixAccum
  | [], a => a
  | e :: rest, a =>
    let result := check_file_lint filePath e.step configName store e.checkProc
    if result.status = .error then
      { a with file_has_errors := true,
               error_messages := tagMsg e.step.tool_name result.error a.error_messages }
    else if result.status = .issue then
      let a := { a with file_had_issues := true }
      let a :=
        if e.step.can_fix then
          if fix_file_lint e.step e.fixProc then a
          else { a with all_fixed := false,
                        error_messages := tagMsg e.step.tool_name result.error a.error_messages }
        else
          { a with all_fixed := false,
                   error_messages := tagMsg e.step.tool_name result.error a.error_messages }
      fix_single_file_loop configName store filePath rest a
    else
      fix_single_file_loop configName store filePath rest a

/-- Outcome classification of `fix_single_file` (lines 552-559). -/
def fix_outcome (a : FixAccum) : String :=
  if a.file_has_errors then "error"
  else if !a.file_had_issues then "skip"
  else if a.all_fixed then "fixed"
  else "partial"

/-- Per-file statistics update in `fix_files_parallel` (lines 600-611). -/
def fix_record (s : Statistics) (outcome : String) : Statistics :=
  let s := { s with total := s.total + 1 }
  if outcome = "error" then { s with errors := s.errors + 1 }
  else if outcome = "skip" then s.record_fix false
  else if outcome = "fixed" then s.record_fix true
  else s.record_fix false

/-- In the outcome vocabulary of `fix_single_file`, `"partial"` means the
file had issues and at least one fixable issue was not resolved (or an
unfixable tool reported an issue); every other non-error outcome means no
fixable issue remained unresolved. -/
def all_fixable_resolved (outcome : String) : Bool :=
  outcome ≠ "partial"

/-- Modelled from the spec (claim C8, "Exit codes"): a fix run exits 0
exactly when all fixable issues were resolved with zero tool errors. -/
def spec_fix_exit (allFixableResolved : Bool) (s : Statistics) : Nat :=
  if allFixableResolved && decide (s.errors = 0) then 0 else 1

/-- A model of the project tree: the set of existing directories and the
set of existing files, both as root-relative path strings. -/
structure FileSystem where
  dirs : List String
  files : List String
  deriving Repr

/-- Tests whether `f` lies (recursively) under directory `dir`. -/
def underDir (dir f : String) : Bool :=
  listStartsWith (dir ++ "/").toList f.toList

/-- Python `str.endswith`. -/
def strEndsWith (s suffix : String) : Bool :=
  listStartsWith suffix.toList.reverse s.toList.reverse

/-- Embedding of `path.rglob(f"*{extension}")` inside `find_files_by_extensions`
(`utils/filesystem.py` lines 15-19): all files under `path` whose name
ends with the extension string. -/
def rglobExt (fs : FileSystem) (dir ext : String) : List String :=
  fs.files.filter (fun f => underDir dir f && strEndsWith f ext)

/-- Lexicographic comparison of character lists by code point. -/
def charListLt : List Char → List Char → Bool
  | [], [] => false
  | [], _ :: _ => true
  | _ :: _, [] => false
  | a :: as, b :: bs =>
    decide (a.toNat < b.toNat) || (a = b && charListLt as bs)

/-- Comparison `a ≤ b` on path strings (Python compares strings by code point). -/
def strLe (a b : String) : Bool :=
  a = b || charListLt a.toList b.toList

/-- Insert into a `strLe`-sorted list, keeping it sorted. -/
def insertSorted (x : String) : List String → List String
  | [] => [x]
  | y :: ys => if strLe x y then x :: y :: ys else y :: insertSorted x ys

/-- Models Python `sorted` on path strings (pathlib compares paths by
their string form on POSIX): insertion sort with respect to `strLe`. -/
def sortStrings (l : List String) : List String :=
  l.foldr insertSorted []

/-- Embedding of `find_files_by_extensions` (`utils/filesystem.py` lines 15-19): the
per-extension `rglob` results are concatenated and the concatenation is
sorted once. -/
def find_files_by_extensions (fs : FileSystem) (dir : String) (extensions : List String) :
    List String :=
  sortStrings ((extensions.map (fun e => rglobExt fs dir e)).flatten)

/-- Embedding of `collect_files` (`utils/file_checking/utils.py` lines 12-27): extend
with each existing directory's matches in directory order, then append
each existing explicit file in order.  No global sort, no deduplication. -/
def collect_files (fs : FileSystem) (extensions : List String)
    (search_dirs specific_files : List String) : List String :=
  ((search_dirs.filter (fun d => fs.dirs.contains d)).map
      (fun d => find_files_by_extensions fs d extensions)).flatten
    ++ specific_files.filter (fun f => fs.files.contains f)

/-- Keep-first deduplication of a list of strings. -/
def listDedup : List String → List String
  | [] => []
  | x :: xs => x :: (listDedup xs).filter (fun y => y != x)

/-- Modelled from the spec (claim C2): the deduplicated, lexicographically
sorted set of existing matching files. -/
def collect_files_spec (fs : FileSystem) (extensions : List String)
    (search_dirs specific_files : List String) : List String :=
  sortStrings (listDedup
    (((search_dirs.filter (fun d => fs.dirs.contains d)).map
        (fun d => rglobAll fs d extensions)).flatten
      ++ specific_files.filter (fun f => fs.files.contains f)))
where
  rglobAll (fs : FileSystem) (dir : String) (extensions : List String) : List String :=
    fs.files.filter (fun f => underDir dir f && extensions.any (fun e => strEndsWith f e))

/-- License-header issue kinds (`IssueType` enum in
`commands/check_license_headers.py`). -/
inductive IssueType where
  | missing
  | incorrect
  deriving DecidableEq, Repr

/-- The `HeaderCheckResult` dataclass from `commands/check_license_headers.py`. -/
structure HeaderCheckResult where
  result : FileResult
  issue_type : Option IssueType := none
  year : Int := 0
  deriving DecidableEq, Repr

/-- A license-header cache entry (`CacheEntry` TypedDict in
`check_license_headers.py`).  Modification times are compared only for
equality, so we model the float as an integer timestamp. -/
structure LicenseCacheEntry where
  mtime : Int
  status : String
  year : Int
  error : Option String := none
  deriving DecidableEq, Repr

/-- Embedding of `LicenseHeaderCacheManager.get_cached_result`
(`check_license_headers.py` lines 97-128) as a function of the looked-up
entry and the outcome of the fresh `stat` (`none` models an `OSError`).
An unrecognized stored status string falls through to the final
`return None` (line 128). -/
def license_get_cached_result (enabled : Bool) (entry : Option LicenseCacheEntry)
    (statMtime : Option Int) (filePath : String) : Option HeaderCheckResult :=
  if !enabled then none
  else
    match entry with
    | none => none
    | some e =>
      match statMtime with
      | none => none
      | some m =>
        if e.mtime ≠ m then none
        else if e.status = "ok" then
          some ⟨⟨filePath, .ok, none⟩, none, e.year⟩
        else if e.status = "missing" then
          some ⟨⟨filePath, .issue, none⟩, some .missing, e.year⟩
        else if e.status = "incorrect" then
          some ⟨⟨filePath, .issue, none⟩, some .incorrect, e.year⟩
        else if e.status = "error" then
          some ⟨⟨filePath, .error, e.error⟩, none, e.year⟩
        else none

/-- A lint cache entry (`CacheEntry` TypedDict in `lint.py`). -/
structure LintCacheEntry where
  mtime : Int
  status : String
  error : Option String := none
  deriving DecidableEq, Repr

/-- Embedding of `LintCacheManager.get_cached_result` (`lint.py` lines 92-119).  After
the mtime check succeeds the code builds `status_map`, whose construction
evaluates `FileStatus.WARNING` (line 114) and therefore raises
`AttributeError("WARNING")` before any cached verdict can be served. -/
def lint_get_cached_result (enabled : Bool) (entry : Option LintCacheEntry)
    (statMtime : Option Int) (_filePath : String) : Except String (Option FileResult) :=
  if !enabled then .ok none
  else
    match entry with
    | none => .ok none
    | some e =>
      match statMtime with
      | none => .ok none
      | some m =>
        if e.mtime ≠ m then .ok none
        else .error "WARNING"

/-- Which primitive I/O operations fail during a `save_cache` call. -/
structure FlushEnv where
  mkdirRaises : Bool
  dumpRaises : Bool
  replaceRaises : Bool
  tempExistsOnFailure : Bool
  deriving DecidableEq, Repr

/-- Observable outcome of a completed `save_cache` call. -/
inductive FlushResult where
  | noop
  | saved
  | cleanedTemp
  | swallowed
  deriving DecidableEq, Repr

/-- Embedding of `save_cache` (`lint.py` lines 73-86 and `check_license_headers.py`
lines 78-91, both identical): no-op when disabled; then
`self.cache_path.parent.mkdir(...)` runs **outside** the `try`, so an
`OSError` from it propagates to the caller; failures of the temp-file
write (`open`/`yaml.dump`) or of `temp_path.replace` are caught, the temp
file is unlinked when present, and the error is swallowed. -/
def save_cache (enabled : Bool) (env : FlushEnv) : Except String FlushResult :=
  if !enabled then .ok .noop
  else if env.mkdirRaises then .error "OSError"
  else if env.dumpRaises || env.replaceRaises then
    .ok (if env.tempExistsOnFailure then .cleanedTemp else .swallowed)
  else .ok .saved

/-- A line of text as returned by Python `readlines`: the characters
including the trailing newline when present. -/
abbrev Line := List Char

/-- Worker for `readlines`: scans the content, accumulating the current
line's characters in reverse. -/
def splitLinesAux : List Char → List Char → List Line
  | [], acc => if acc = [] then [] else [acc.reverse]
  | c :: cs, acc =>
    if c = '\n' then (acc.reverse ++ ['\n']) :: splitLinesAux cs []
    else splitLinesAux cs (c :: acc)

/-- Python `f.readlines()`: split the file content into lines, each
keeping its trailing `'\n'`; a final unterminated chunk forms a last line
without `'\n'`; the empty file yields no lines. -/
def readlines (content : List Char) : List Line :=
  splitLinesAux content []

/-- Python `f.writelines(lines)`: concatenation, with no separators
added. -/
def writelines (ls : List Line) : List Char :=
  ls.flatten

/-- Python `line.startswith("#!")`. -/
def isShebang : Line → Bool
  | '#' :: '!' :: _ => true
  | _ => false

/-- The `header_offset` computation shared by
`has_correct_license_header` (lines 327-329) and `fix_header` (lines
370-374): 1 when the first line is a shebang, else 0. -/
def headerOffset (lines : List Line) : Nat :=
  match lines with
  | [] => 0
  | l :: _ => if isShebang l then 1 else 0

/-- The header-comparison loop (`for i, expected_line in
enumerate(expected_header): if lines[i + header_offset] != expected_line`):
under the guard `len(lines) >= len(expected_header) + offset` it is
equivalent to the equality below. -/
def headerMatchesAt (lines hdr : List Line) (off : Nat) : Bool :=
  decide ((lines.drop off).take hdr.length = hdr)

/-- Header verdicts of `has_correct_license_header` (the pure part of
`HeaderCheckResult`: OK, or ISSUE with `IssueType.MISSING` /
`IssueType.INCORRECT`). -/
inductive HeaderVerdict where
  | ok
  | missing
  | incorrect
  deriving DecidableEq, Repr

/-- The pure core of `has_correct_license_header`
(`check_license_headers.py` lines 308-339), as a function of the file
content (already read, so the I/O error handlers of lines 341-356 do not
fire) and of the generated expected header `hdr = header_generator(year)`.
The `header_generator` functions themselves are repository code not
present under `src/` (`constants/license_header.py` exports only header
line lists), so the header is kept abstract here. -/
def has_correct_license_header (content : List Char) (hdr : List Line) :
    HeaderVerdict :=
  let lines := readlines content
  let off := headerOffset lines
  if lines.length < hdr.length + off then .missing
  else if headerMatchesAt lines hdr off then .ok
  else .incorrect

/-- Embedding of `fix_header` (`check_license_headers.py` lines 359-394), as a
function of the file content: `none` models `return False` (header
already correct, nothing written); `some new` models writing `new`
(shebang line first when present, then the generated header, then the
original lines after the shebang) and `return True`. -/
def fix_header (content : List Char) (hdr : List Line) : Option (List Char) :=
  let lines := readlines content
  let off := headerOffset lines
  let shebang_line := lines.take off
  if decide (lines.length ≥ hdr.length + off) && headerMatchesAt lines hdr off then
    none
  else
    some (writelines (shebang_line ++ hdr ++ lines.drop off))

/-- The per-file body of the license-header `fix_single_file`
(`check_license_headers.py` lines 507-546) for a readable file on a cache
miss: check first; OK skips; otherwise attempt `fix_header`; a write
reports `"fixed"`, no write reports `"skip"`.  Returns the outcome
string and the resulting file content.  The copyright year (and hence
`hdr`) is stable across runs: it is derived from the git history, which
an uncommitted rewrite does not change. -/
def license_fix_single_file (content : List Char) (hdr : List Line) :
    String × List Char :=
  match has_correct_license_header content hdr with
  | .ok => ("skip", content)
  | _ =>
    match fix_header content hdr with
    | some newContent => ("fixed", newContent)
    | none => ("skip", content)

/-- A proper text line: nonempty, ends with `'\n'`, and contains no other
`'\n'`. -/
def properLine : Line → Bool
  | [] => false
  | c :: rest => if rest.isEmpty then c = '\n' else (c != '\n') && properLine rest

/-- A final unterminated chunk: nonempty and containing no `'\n'`. -/
def chunkLine (l : Line) : Bool :=
  !l.isEmpty && l.all (fun c => c != '\n')

/-- Well-formed line lists: every line is proper, except that the last
one may instead be an unterminated chunk.  `readlines` always produces a
well-formed list, and on well-formed lists `readlines ∘ writelines` is
the identity. -/
def wfLines : List Line → Prop
  | [] => True
  | l :: ls => (properLine l = true ∨ (ls = [] ∧ chunkLine l = true)) ∧ wfLines ls

/-- If the file's first line is a shebang, it carries its `'\n'`
terminator (in particular the file does not consist of a single
unterminated shebang line). -/
def shebangTerminated (content : List Char) : Bool :=
  match readlines content with
  | [] => true
  | l :: _ => !isShebang l || properLine l

/-- The generated header does not itself start with a shebang line (true
of all the repository's headers, which start with a comment marker). -/
def headerNoShebang (hdr : List Line) : Bool :=
  match hdr with
  | [] => true
  | l :: _ => !isShebang l

theorem isEmptyFalse {α : Type} (l : List α) (h : l ≠ []) : l.isEmpty = false := by
  rcases l with _ | _
  · exact absurd rfl h
  · rfl

theorem splitLinesAux_no_newline (m : List Char) : ∀ acc : List Char,
    (∀ c ∈ m, c ≠ '\n') →
    splitLinesAux m acc = if acc.reverse ++ m = [] then [] else [acc.reverse ++ m] := by
  induction m with
  | nil =>
    intro acc _
    rcases acc with _ | ⟨a, as⟩ <;> simp [splitLinesAux]
  | cons c cs ih =>
    intro acc h
    have hc : c ≠ '\n' := h c (List.mem_cons_self c cs)
    rw [splitLinesAux, if_neg hc,
      ih (c :: acc) (fun x hx => h x (List.mem_cons_of_mem c hx))]
    simp

theorem splitLinesAux_line (m : List Char) : ∀ (rest acc : List Char),
    (∀ c ∈ m, c ≠ '\n') →
    splitLinesAux (m ++ '\n' :: rest) acc
      = (acc.reverse ++ m ++ ['\n']) :: splitLinesAux rest [] := by
  induction m with
  | nil =>
    intro rest acc _
    simp [splitLinesAux]
  | cons c cs ih =>
    intro rest acc h
    have hc : c ≠ '\n' := h c (List.mem_cons_self c cs)
    rw [List.cons_append, splitLinesAux, if_neg hc,
      ih rest (c :: acc) (fun x hx => h x (List.mem_cons_of_mem c hx))]
    simp

theorem properLine_shape (l : Line) (hl : properLine l = true) :
    ∃ m, l = m ++ ['\n'] ∧ ∀ c ∈ m, c ≠ '\n' := by
  induction l with
  | nil => simp [properLine] at hl
  | cons c cs ih =>
    rcases cs with _ | ⟨d, ds⟩
    · simp [properLine] at hl
      exact ⟨[], by simp [hl], by simp⟩
    · rw [properLine] at hl
      simp at hl
      obtain ⟨m, hm, hmem⟩ := ih hl.2
      refine ⟨c :: m, by simp [hm], ?_⟩
      intro x hx
      rw [List.mem_cons] at hx
      rcases hx with rfl | hx
      · exact hl.1
      · exact hmem x hx

theorem splitLinesAux_proper (l : Line) (rest acc : List Char)
    (hl : properLine l = true) :
    splitLinesAux (l ++ rest) acc = (acc.reverse ++ l) :: splitLinesAux rest [] := by
  obtain ⟨m, hm, hmem⟩ := properLine_shape l hl
  subst hm
  rw [List.append_assoc, List.singleton_append, splitLinesAux_line m rest acc hmem,
    List.append_assoc]

theorem readlines_writelines (L : List Line) (h : wfLines L) :
    readlines (writelines L) = L := by
  induction L with
  | nil => rfl
  | cons l ls ih =>
    rw [wfLines] at h
    rcases h with ⟨hl | ⟨hls, hchunk⟩, hrest⟩
    · show splitLinesAux (l ++ writelines ls) [] = l :: ls
      rw [splitLinesAux_proper l (writelines ls) [] hl]
      simp only [List.reverse_nil, List.nil_append]
      exact congrArg (l :: ·) (ih hrest)
    · subst hls
      show splitLinesAux (l ++ writelines []) [] = [l]
      have hchunk' := hchunk
      rw [chunkLine, Bool.and_eq_true] at hchunk'
      have hne : l ≠ [] := by
        intro hc
        rw [hc] at hchunk'
        simp at hchunk'
      have hmem : ∀ c ∈ l, c ≠ '\n' := by
        intro c hc
        have := List.all_eq_true.mp hchunk'.2 c hc
        simpa using this
      rw [show writelines [] = [] from rfl, List.append_nil,
        splitLinesAux_no_newline l [] hmem]
      rcases l with _ | ⟨a, as⟩
      · exact absurd rfl hne
      · simp

theorem properLine_append_newline (m : List Char) (h : ∀ c ∈ m, c ≠ '\n') :
    properLine (m ++ ['\n']) = true := by
  induction m with
  | nil => rfl
  | cons c cs ih =>
    have hc : c ≠ '\n' := h c (List.mem_cons_self c cs)
    have hrec := ih (fun x hx => h x (List.mem_cons_of_mem c hx))
    have hne : ((cs ++ ['\n']).isEmpty) = false := by
      rcases cs with _ | _ <;> rfl
    rw [List.cons_append, properLine]
    simp [hne, hc, hrec]

theorem wfLines_splitLinesAux (c : List Char) : ∀ acc : List Char,
    (∀ ch ∈ acc, ch ≠ '\n') → wfLines (splitLinesAux c acc) := by
  induction c with
  | nil =>
    intro acc hacc
    rw [splitLinesAux]
    split
    · trivial
    · refine ⟨Or.inr ⟨rfl, ?_⟩, trivial⟩
      rw [chunkLine, Bool.and_eq_true]
      have hacc_ne : acc ≠ [] := by
        rename_i hne
        intro hc
        exact hne (by rw [hc])
      constructor
      · have hrev : acc.reverse ≠ [] := by
          simpa using hacc_ne
        rw [isEmptyFalse acc.reverse hrev]
        rfl
      · rw [List.all_eq_true]
        intro x hx
        have hx' : x ∈ acc := List.mem_reverse.mp hx
        simpa using hacc x hx'
  | cons ch cs ih =>
    intro acc hacc
    rw [splitLinesAux]
    by_cases hch : ch = '\n'
    · rw [if_pos hch]
      refine ⟨Or.inl ?_, ih [] (by simp)⟩
      exact properLine_append_newline acc.reverse
        (fun x hx => hacc x (List.mem_reverse.mp hx))
    · rw [if_neg hch]
      refine ih (ch :: acc) ?_
      intro x hx
      rw [List.mem_cons] at hx
      rcases hx with rfl | hx
      · exact hch
      · exact hacc x hx

theorem wfLines_readlines (c : List Char) : wfLines (readlines c) :=
  wfLines_splitLinesAux c [] (by simp)

theorem wfLines_of_cons {l : Line} {ls : List Line} (h : wfLines (l :: ls)) :
    wfLines ls := h.2

theorem wfLines_drop (L : List Line) (h : wfLines L) : ∀ n : Nat, wfLines (L.drop n) := by
  induction L with
  | nil => intro n; simp; trivial
  | cons l ls ih =>
    intro n
    rcases n with _ | n
    · exact h
    · exact ih (wfLines_of_cons h) n

theorem wfLines_append (A B : List Line) (hA : ∀ l ∈ A, properLine l = true)
    (hB : wfLines B) : wfLines (A ++ B) := by
  induction A with
  | nil => exact hB
  | cons a A' ih =>
    rw [List.cons_append, wfLines]
    exact ⟨Or.inl (hA a (by simp)), ih (fun l hl => hA l (by simp [hl]))⟩

theorem take_headerOffset_proper (content : List Char)
    (hsheb : shebangTerminated content = true) :
    ∀ l ∈ (readlines content).take (headerOffset (readlines content)),
      properLine l = true := by
  intro l hl
  cases hres : readlines content with
  | nil => rw [hres] at hl; simp at hl
  | cons l0 rest =>
    have hsheb' : (!isShebang l0 || properLine l0) = true := by
      rw [shebangTerminated, hres] at hsheb
      exact hsheb
    rw [hres] at hl
    rw [headerOffset] at hl
    by_cases hs : isShebang l0
    · rw [if_pos hs] at hl
      rw [List.take_succ_cons, List.take_zero] at hl
      have hl0 : l = l0 := by simpa using hl
      subst hl0
      rw [hs] at hsheb'
      simpa using hsheb'
    · rw [if_neg hs] at hl
      simp at hl

theorem readlines_fix_result (content : List Char) (hdr : List Line)
    (hhdr : ∀ l ∈ hdr, properLine l = true)
    (hsheb : shebangTerminated content = true) :
    readlines (writelines
      ((readlines content).take (headerOffset (readlines content)) ++ hdr ++
       (readlines content).drop (headerOffset (readlines content))))
    = (readlines content).take (headerOffset (readlines content)) ++ hdr ++
      (readlines content).drop (headerOffset (readlines content)) := by
  apply readlines_writelines
  apply wfLines_append
  · intro l hl
    rw [List.mem_append] at hl
    rcases hl with hl | hl
    · exact take_headerOffset_proper content hsheb l hl
    · exact hhdr l hl
  · exact wfLines_drop (readlines content) (wfLines_readlines content) _

theorem fix_header_writes (content : List Char) (hdr : List Line)
    (h : has_correct_license_header content hdr ≠ .ok) :
    fix_header content hdr = some (writelines
      ((readlines content).take (headerOffset (readlines content)) ++ hdr ++
       (readlines content).drop (headerOffset (readlines content)))) := by
  rw [has_correct_license_header] at h
  rw [fix_header]
  by_cases h1 : (readlines content).length <
      hdr.length + headerOffset (readlines content)
  · have : decide ((readlines content).length ≥
        hdr.length + headerOffset (readlines content)) = false := by
      simpa using Nat.not_le_of_lt h1
    rw [this, Bool.false_and, if_neg (by simp)]
  · rw [if_neg h1] at h
    have h2 : headerMatchesAt (readlines content) hdr
        (headerOffset (readlines content)) = false := by
      by_contra hc
      rw [Bool.not_eq_false] at hc
      rw [if_pos hc] at h
      exact h rfl
    rw [h2, Bool.and_false, if_neg (by simp)]

theorem has_correct_after_fix (content : List Char) (hdr : List Line)
    (hhdr : ∀ l ∈ hdr, properLine l = true)
    (hnos : headerNoShebang hdr = true)
    (hsheb : shebangTerminated content = true) :
    has_correct_license_header (writelines
      ((readlines content).take (headerOffset (readlines content)) ++ hdr ++
       (readlines content).drop (headerOffset (readlines content)))) hdr
    = .ok := by
  have hround := readlines_fix_result content hdr hhdr hsheb
  have hoffhdr : ∀ tail : List Line, headerOffset tail = 0 →
      headerOffset (hdr ++ tail) = 0 := by
    intro tail htail
    cases hdr with
    | nil => rw [List.nil_append]; exact htail
    | cons h0 hs' =>
      rw [List.cons_append, headerOffset]
      have hnos' : isShebang h0 = false := by
        have hb : (!isShebang h0) = true := hnos
        simpa using hb
      rw [if_neg (by simp [hnos'])]
  rw [has_correct_license_header, hround]
  cases hres : readlines content with
  | nil =>
    simp only [List.take_nil, List.drop_nil, List.nil_append, List.append_nil]
    have hoff : headerOffset hdr = 0 := by
      have := hoffhdr [] rfl
      rwa [List.append_nil] at this
    rw [hoff]
    rw [if_neg (by simp)]
    have hmatch : headerMatchesAt hdr hdr 0 = true := by
      rw [headerMatchesAt]
      simp
    rw [if_pos hmatch]
  | cons l0 rest =>
    rw [headerOffset]
    by_cases hs : isShebang l0
    · rw [if_pos hs]
      rw [List.take_succ_cons, List.take_zero, List.drop_succ_cons, List.drop_zero]
      have hshape : ([l0] ++ hdr) ++ rest = l0 :: (hdr ++ rest) := by simp
      rw [hshape]
      rw [show headerOffset (l0 :: (hdr ++ rest)) = 1 by rw [headerOffset, if_pos hs]]
      have hlen : ¬((l0 :: (hdr ++ rest)).length < hdr.length + 1) := by
        simp only [List.length_cons, List.length_append]
        omega
      rw [if_neg hlen]
      have hmatch : headerMatchesAt (l0 :: (hdr ++ rest)) hdr 1 = true := by
        rw [headerMatchesAt, List.drop_succ_cons, List.drop_zero]
        simp [List.take_left]
      rw [if_pos hmatch]
    · rw [if_neg hs]
      rw [List.take_zero, List.drop_zero, List.nil_append]
      have hoff2 : headerOffset (hdr ++ l0 :: rest) = 0 :=
        hoffhdr (l0 :: rest) (by rw [headerOffset, if_neg hs])
      rw [hoff2]
      have hlen : ¬((hdr ++ l0 :: rest).length < hdr.length + 0) := by
        simp only [List.length_append, List.length_cons]
        omega
      rw [if_neg hlen]
      have hmatch : headerMatchesAt (hdr ++ l0 :: rest) hdr 0 = true := by
        rw [headerMatchesAt, List.drop_zero]
        simp [List.take_left]
      rw [if_pos hmatch]

theorem mem_insertSorted (x y : String) (l : List String) :
    y ∈ insertSorted x l ↔ y = x ∨ y ∈ l := by
  induction l with
  | nil => simp [insertSorted]
  | cons a as ih =>
    rw [insertSorted]
    by_cases h : strLe x a
    · rw [if_pos (by simp [h])]
      simp [List.mem_cons]
    · rw [if_neg (by simp [h])]
      rw [List.mem_cons, List.mem_cons, ih]
      tauto

theorem mem_sortStrings (y : String) (l : List String) :
    y ∈ sortStrings l ↔ y ∈ l := by
  induction l with
  | nil => simp [sortStrings]
  | cons a as ih =>
    rw [sortStrings, List.foldr_cons, mem_insertSorted]
    rw [sortStrings] at ih
    rw [ih, List.mem_cons]

theorem mem_find_files_by_extensions (fs : FileSystem) (dir : String)
    (extensions : List String) (f : String) :
    f ∈ find_files_by_extensions fs dir extensions ↔
      (f ∈ fs.files ∧ underDir dir f = true ∧
        ∃ e ∈ extensions, strEndsWith f e = true) := by
  rw [find_files_by_extensions, mem_sortStrings]
  rw [List.mem_flatten]
  constructor
  · rintro ⟨l, hl, hf⟩
    rw [List.mem_map] at hl
    obtain ⟨e, he, rfl⟩ := hl
    rw [rglobExt, List.mem_filter] at hf
    obtain ⟨hfile, hcond⟩ := hf
    rw [Bool.and_eq_true] at hcond
    exact ⟨hfile, hcond.1, e, he, hcond.2⟩
  · rintro ⟨hfile, hdir, e, he, hext⟩
    refine ⟨rglobExt fs dir e, List.mem_map.mpr ⟨e, he, rfl⟩, ?_⟩
    rw [rglobExt, List.mem_filter]
    exact ⟨hfile, by rw [Bool.and_eq_true]; exact ⟨hdir, hext⟩⟩

theorem mem_collect_files (fs : FileSystem) (extensions dirs specifics : List String)
    (f : String) :
    f ∈ collect_files fs extensions dirs specifics ↔
      ((∃ d ∈ dirs, fs.dirs.contains d = true ∧ f ∈ fs.files ∧
          underDir d f = true ∧ ∃ e ∈ extensions, strEndsWith f e = true) ∨
       (f ∈ specifics ∧ fs.files.contains f = true)) := by
  rw [collect_files, List.mem_append]
  constructor
  · rintro (hl | hr)
    · rw [List.mem_flatten] at hl
      obtain ⟨l, hl, hf⟩ := hl
      rw [List.mem_map] at hl
      obtain ⟨d, hd, rfl⟩ := hl
      rw [List.mem_filter] at hd
      rw [mem_find_files_by_extensions] at hf
      exact Or.inl ⟨d, hd.1, hd.2, hf.1, hf.2.1, hf.2.2⟩
    · rw [List.mem_filter] at hr
      exact Or.inr hr
  · rintro (⟨d, hd, hdex, hfile, hdir, e, he, hext⟩ | ⟨hspec, hex⟩)
    · refine Or.inl ?_
      rw [List.mem_flatten]
      refine ⟨find_files_by_extensions fs d extensions, ?_, ?_⟩
      · rw [List.mem_map]
        exact ⟨d, List.mem_filter.mpr ⟨hd, hdex⟩, rfl⟩
      · rw [mem_find_files_by_extensions]
        exact ⟨hfile, hdir, e, he, hext⟩
    · exact Or.inr (List.mem_filter.mpr ⟨hspec, hex⟩)

theorem cacheKey_inj (c t1 t2 : String) (h : c ++ ":" ++ t1 = c ++ ":" ++ t2) :
    t1 = t2 := by
  have hdata := congrArg String.data h
  rw [String.data_append, String.data_append] at hdata
  have h2 := List.append_cancel_left hdata
  cases t1
  cases t2
  exact congrArg String.mk h2

theorem get_package_result_storeSet_ne (store : PkgStore) (k k' fp : String)
    (m : List (String × FileResult)) (h : k' ≠ k) :
    get_package_result (storeSet store k m) k' fp = get_package_result store k' fp := by
  rw [get_package_result, storeSet, alookup, if_neg (fun hc => h hc.symm),
    get_package_result]

theorem getLastSome {α : Type} (a : α) (l : List α) :
    ∃ y, (a :: l).getLast? = some y := by
  induction l generalizing a with
  | nil => exact ⟨a, rfl⟩
  | cons b bs ih =>
    obtain ⟨y, hy⟩ := ih b
    exact ⟨y, by rw [List.getLast?_cons_cons, hy]⟩

theorem exceptBindOk {α β : Type} (a : α) (k : α → Except String β) :
    (Except.ok a >>= k) = k a := rfl

theorem run_pkg_fresh (f0 : String) (files' : List String) (st : LintStep)
    (configName : String) (store : PkgStore) (proc : ProcOutcome)
    (hfresh : get_package_result store (configName ++ ":" ++ st.tool_name) f0 = none) :
    ∃ m, run_package_level_lint (f0 :: files') st configName store proc
      = .ok (storeSet store (configName ++ ":" ++ st.tool_name) m, true) := by
  obtain ⟨y, hy⟩ := getLastSome f0 files'
  rw [run_package_level_lint.eq_def]
  dsimp only [List.head?]
  rw [hfresh]
  simp only [Option.isSome_none, Bool.false_eq_true, if_false]
  cases proc with
  | error e =>
    dsimp only
    rw [pkgFallback, hy]
    exact ⟨_, rfl⟩
  | ok r =>
    dsimp only
    cases hb : buildPkgResults (r.stdout ++ r.stderr) r.returncode (f0 :: files') with
    | error msg =>
      dsimp only
      rw [pkgFallback, hy]
      exact ⟨_, rfl⟩
    | ok results =>
      exact ⟨results, rfl⟩

theorem pkg_prerun_phase_count (f0 : String) (files' : List String)
    (configName : String) (env : LintStep → ProcOutcome) :
    ∀ (steps : List LintStep) (store : PkgStore),
    ((steps.filter (fun s => s.package_level)).map (fun s => s.tool_name)).Nodup →
    (∀ st ∈ steps, st.package_level = true →
      get_package_result store (configName ++ ":" ++ st.tool_name) f0 = none) →
    ∃ store', pkg_prerun_phase (f0 :: files') configName env steps store
      = .ok (store', (steps.filter (fun s => s.package_level)).length) := by
  intro steps
  induction steps with
  | nil =>
    intro store _ _
    exact ⟨store, rfl⟩
  | cons st rest ih =>
    intro store hnodup hfresh
    rw [pkg_prerun_phase]
    by_cases hp : st.package_level
    · rw [if_pos (by simp [hp])]
      obtain ⟨m, hm⟩ := run_pkg_fresh f0 files' st configName store (env st)
        (hfresh st (List.mem_cons_self st rest) hp)
      rw [List.filter_cons_of_pos (by simp [hp]), List.map_cons] at hnodup
      rw [List.nodup_cons] at hnodup
      obtain ⟨store', hrec⟩ := ih (storeSet store (configName ++ ":" ++ st.tool_name) m)
        hnodup.2
        (by
          intro st' hst' hp'
          rw [get_package_result_storeSet_ne]
          · exact hfresh st' (List.mem_cons_of_mem st hst') hp'
          · intro hkey
            apply hnodup.1
            rw [List.mem_map]
            refine ⟨st', List.mem_filter.mpr ⟨hst', by simp [hp']⟩, ?_⟩
            exact (cacheKey_inj configName st'.tool_name st.tool_name hkey).symm ▸ rfl)
      refine ⟨store', ?_⟩
      rw [hm, exceptBindOk]
      dsimp only
      rw [hrec, exceptBindOk]
      dsimp only
      rw [List.filter_cons_of_pos (by simp [hp]), List.length_cons]
      rw [Nat.add_comm]
      rfl
    · rw [if_neg (by simp [hp])]
      rw [List.filter_cons_of_neg (by simp [hp])] at hnodup ⊢
      exact ih store hnodup
        (fun st' hst' hp' => hfresh st' (List.mem_cons_of_mem st hst') hp')

/-- Claim C1 (code_bug): the two warning cases of `check_file_lint`
cannot yield a WARNING verdict, because `FileStatus` has no `WARNING`
member.  Evaluating a per-file step whose tool exits 0 (resp. exits
non-zero) with a warning marker in the output makes the
`FileStatus.WARNING` branch raise `AttributeError("WARNING")`, which the
`except Exception` handler converts into an ERROR verdict carrying
`"WARNING"` as diagnostic, instead of the WARNING verdict the claim
describes. -/
theorem C1_warning_marker_yields_error :
    check_file_lint "src/a.cpp" tidyStep "C/C++" []
        (.ok ⟨0, "warning: unused variable\n", ""⟩)
      = ⟨"src/a.cpp", .error, some "WARNING"⟩ ∧
    check_file_lint "src/b.cpp" tidyStep "C/C++" []
        (.ok ⟨1, "src/b.cpp: warning: shadowed\n", ""⟩)
      = ⟨"src/b.cpp", .error, some "WARNING"⟩ :=
  ⟨by decide, by decide⟩

/-- Claim C2 (counterexample): `collect_files` is neither globally sorted
nor deduplicated.  With search directories given as `["b", "a"]` the
result keeps directory order (unsorted), differing from the spec's
sorted-set contract; listing a directory twice duplicates its files. -/
theorem C2_collect_files_not_sorted_dedup :
    collect_files ⟨["a", "b"], ["a/x.py", "b/y.py"]⟩ [".py"] ["b", "a"] []
      = ["b/y.py", "a/x.py"] ∧
    collect_files_spec ⟨["a", "b"], ["a/x.py", "b/y.py"]⟩ [".py"] ["b", "a"] []
      = ["a/x.py", "b/y.py"] ∧
    collect_files ⟨["a", "b"], ["a/x.py", "b/y.py"]⟩ [".py"] ["b", "a"] []
      ≠ collect_files_spec ⟨["a", "b"], ["a/x.py", "b/y.py"]⟩ [".py"] ["b", "a"] [] ∧
    collect_files ⟨["a"], ["a/x.py"]⟩ [".py"] ["a", "a"] []
      = ["a/x.py", "a/x.py"] :=
  ⟨by decide, by decide, by decide, by decide⟩

/-- Claim C2 (amended): the collector returns, in directory order, each
existing search directory's (per-directory sorted) matches, followed by
the existing explicit files in order; the underlying set of paths is
exactly the claimed set (recursively found matching files of existing
directories plus existing explicit files), and non-existent directories
and files are silently skipped — but the result is neither globally
sorted nor deduplicated. -/
theorem C2_collect_files_amended (fs : FileSystem)
    (extensions dirs specifics : List String) (f d x : String)
    (hd : fs.dirs.contains d = false) (hx : fs.files.contains x = false) :
    (f ∈ collect_files fs extensions dirs specifics ↔
      ((∃ dir ∈ dirs, fs.dirs.contains dir = true ∧ f ∈ fs.files ∧
          underDir dir f = true ∧ ∃ e ∈ extensions, strEndsWith f e = true) ∨
       (f ∈ specifics ∧ fs.files.contains f = true))) ∧
    collect_files fs extensions (dirs ++ [d]) specifics
      = collect_files fs extensions dirs specifics ∧
    collect_files fs extensions dirs (specifics ++ [x])
      = collect_files fs extensions dirs specifics := by
  refine ⟨mem_collect_files fs extensions dirs specifics f, ?_, ?_⟩
  · rw [collect_files, collect_files, List.filter_append]
    rw [show List.filter (fun d' => fs.dirs.contains d') [d] = [] by
      rw [List.filter_cons, hd]; simp]
    rw [List.append_nil]
  · rw [collect_files, collect_files, List.filter_append]
    rw [show List.filter (fun f' => fs.files.contains f') [x] = [] by
      rw [List.filter_cons, hx]; simp]
    rw [List.append_nil]

/-- Claim C2 (witness for the amended theorem). -/
theorem C2_collect_files_amended_witness :
    ((⟨["a"], ["a/x.py"]⟩ : FileSystem).dirs.contains "ghost" = false ∧
     (⟨["a"], ["a/x.py"]⟩ : FileSystem).files.contains "ghost.py" = false) ∧
    (("a/x.py" ∈ collect_files ⟨["a"], ["a/x.py"]⟩ [".py"] ["a"] [] ↔
      ((∃ dir ∈ (["a"] : List String),
          (⟨["a"], ["a/x.py"]⟩ : FileSystem).dirs.contains dir = true ∧
          "a/x.py" ∈ (⟨["a"], ["a/x.py"]⟩ : FileSystem).files ∧
          underDir dir "a/x.py" = true ∧
          ∃ e ∈ ([".py"] : List String), strEndsWith "a/x.py" e = true) ∨
       ("a/x.py" ∈ ([] : List String) ∧
        (⟨["a"], ["a/x.py"]⟩ : FileSystem).files.contains "a/x.py" = true))) ∧
     collect_files ⟨["a"], ["a/x.py"]⟩ [".py"] (["a"] ++ ["ghost"]) []
       = collect_files ⟨["a"], ["a/x.py"]⟩ [".py"] ["a"] [] ∧
     collect_files ⟨["a"], ["a/x.py"]⟩ [".py"] ["a"] ([] ++ ["ghost.py"])
       = collect_files ⟨["a"], ["a/x.py"]⟩ [".py"] ["a"] []) :=
  ⟨⟨by decide, by decide⟩,
    C2_collect_files_amended ⟨["a"], ["a/x.py"]⟩ [".py"] ["a"] [] "a/x.py"
      "ghost" "ghost.py" (by decide) (by decide)⟩

/-- Claim C3 (code_bug): in `run_package_level_lint`, a file whose
mention in the output carries a warning marker (but no error marker)
drives the loop into the `FileStatus.WARNING` branch, which raises
`AttributeError("WARNING")`; the `except Exception` handler then stores a
singleton map per file, each overwriting the previous, so only the last
file keeps an entry (an ERROR saying "Failed to run package-level
linting").  The mentioned file `x.py` — which the claim says gets a
WARNING verdict — ends up with no stored entry at all, and its later
lookup in `check_file_lint` yields ERROR "Package-level linting not run";
the unmentioned `y.py` — which the claim says gets OK — ends up with the
fallback ERROR. -/
theorem C3_package_warning_crashes_partition :
    run_package_level_lint ["devutils/x.py", "devutils/y.py"] mypyStep "Python" []
        (.ok ⟨1, "devutils/x.py:3: warning: unused import\n", ""⟩)
      = .ok ([("Python:mypy",
          [("devutils/y.py",
            ⟨"devutils/y.py", .error, some "Failed to run package-level linting"⟩)])],
        true) ∧
    check_file_lint "devutils/x.py" mypyStep "Python"
        [("Python:mypy",
          [("devutils/y.py",
            ⟨"devutils/y.py", .error, some "Failed to run package-level linting"⟩)])]
        (.ok ⟨1, "devutils/x.py:3: warning: unused import\n", ""⟩)
      = ⟨"devutils/x.py", .error, some "Package-level linting not run"⟩ :=
  ⟨by decide, by decide⟩

/-- Claim C4 (counterexample): in fix mode no package-level pre-run
exists, so a per-file work unit reaching a package-level step (here the
`mypy` step, with the fresh empty package store of `lint fix`) observes a
missing package result: `check_file_lint` returns the ERROR fallback
"Package-level linting not run" and `fix_single_file` classifies the file
as an error outcome — contradicting the claim that a work unit always
finds the precomputed package result available. -/
theorem C4_fix_mode_missing_package_result :
    check_file_lint "devutils/m.py" mypyStep "Python" [] (.ok ⟨0, "", ""⟩)
      = ⟨"devutils/m.py", .error, some "Package-level linting not run"⟩ ∧
    fix_single_file_loop "Python" [] "devutils/m.py"
        [⟨mypyStep, .ok ⟨0, "", ""⟩, .ok ⟨0, "", ""⟩⟩] {}
      = ⟨false, true, true, ["[mypy]\nPackage-level linting not run"]⟩ ∧
    fix_outcome ⟨false, true, true, ["[mypy]\nPackage-level linting not run"]⟩
      = "error" :=
  ⟨by decide, by decide, by decide⟩

/-- Claim C4 (amended): in check mode the pre-run phase of
`check_files_parallel` invokes each package-level step's tool exactly
once (given the configured steps' distinct tool names and a nonempty file
list), synchronously before the fan-out; a per-file work unit never
re-invokes a package-level tool (`check_file_lint` ignores the subprocess
environment for package-level steps).  In fix mode, however, there is no
pre-run: a per-file unit reaching a package-level step on the fresh store
observes the missing-result ERROR fallback. -/
theorem C4_package_prerun_amended (f0 : String) (files' : List String)
    (configName : String) (steps : List LintStep) (env : LintStep → ProcOutcome)
    (hnodup : ((steps.filter (fun s => s.package_level)).map
      (fun s => s.tool_name)).Nodup) :
    (∃ store' : PkgStore,
      pkg_prerun_phase (f0 :: files') configName env steps []
        = .ok (store', (steps.filter (fun s => s.package_level)).length)) ∧
    (∀ (st : LintStep) (fp : String) (store : PkgStore) (p q : ProcOutcome),
      st.package_level = true →
      check_file_lint fp st configName store p = check_file_lint fp st configName store q) ∧
    (∀ (st : LintStep) (fp : String) (p : ProcOutcome),
      st.package_level = true →
      check_file_lint fp st configName [] p
        = ⟨fp, .error, some "Package-level linting not run"⟩) := by
  refine ⟨?_, ?_, ?_⟩
  · exact pkg_prerun_phase_count f0 files' configName env steps [] hnodup
      (fun st _ _ => rfl)
  · intro st fp store p q hpl
    rw [check_file_lint.eq_def, check_file_lint.eq_def, hpl]
    simp
  · intro st fp p hpl
    rw [check_file_lint.eq_def, hpl]
    simp [get_package_result, alookup]

/-- Claim C4 (witness for the amended theorem). -/
theorem C4_package_prerun_amended_witness :
    ((([mypyStep, tidyStep].filter (fun s => s.package_level)).map
        (fun s => s.tool_name)).Nodup) ∧
    ((∃ store' : PkgStore,
      pkg_prerun_phase ["devutils/m.py"] "Python" (fun _ => .ok ⟨0, "", ""⟩)
          [mypyStep, tidyStep] []
        = .ok (store',
            (([mypyStep, tidyStep] : List LintStep).filter
              (fun s => s.package_level)).length)) ∧
     (∀ (st : LintStep) (fp : String) (store : PkgStore) (p q : ProcOutcome),
       st.package_level = true →
       check_file_lint fp st "Python" store p = check_file_lint fp st "Python" store q) ∧
     (∀ (st : LintStep) (fp : String) (p : ProcOutcome),
       st.package_level = true →
       check_file_lint fp st "Python" [] p
         = ⟨fp, .error, some "Package-level linting not run"⟩)) :=
  ⟨by decide,
    C4_package_prerun_amended "devutils/m.py" [] "Python" [mypyStep, tidyStep]
      (fun _ => .ok ⟨0, "", ""⟩) (by decide)⟩

/-- Claim C5 (code_bug): `check_single_file` never aggregates anything.
For every file with at least one lint step the very first comparison
`result.status == FileStatus.WARNING` raises `AttributeError("WARNING")`
(the enum member does not exist), the work unit's exception propagates to
the orchestrator, and the file is recorded as a bare ERROR; on the spec's
own example (tool A with a warning-marked result, tool B with an ISSUE)
no ISSUE aggregate and no combined diagnostics are produced.  Even a file
whose only step is OK crashes the same way. -/
theorem C5_aggregation_raises_attribute_error :
    check_single_file [("clang-tidy", ⟨"src/a.cpp", .error, some "WARNING"⟩),
                       ("clang-check", ⟨"src/a.cpp", .issue, some "style finding"⟩)]
      = .error "WARNING" ∧
    check_single_file [("clang-tidy", ⟨"src/a.cpp", .ok, none⟩)]
      = .error "WARNING" :=
  ⟨by decide, by decide⟩

/-- Claim C6 (counterexample): a cache entry whose stored status string
is unrecognized (for instance a corrupted entry with status "bogus") is
reported as absent even though caching is enabled, the entry exists, the
fresh stat succeeds and the modification time matches — refuting the
claim's "absent if and only if" characterization. -/
theorem C6_unrecognized_status_counterexample :
    license_get_cached_result true (some ⟨5, "bogus", 2024, none⟩) (some 5)
        "devutils/a.py" = none ∧
    ¬(true = false ∨
      (some (⟨5, "bogus", 2024, none⟩ : LicenseCacheEntry)) = none ∨
      (some (5 : Int)) = none ∨
      (⟨5, "bogus", 2024, none⟩ : LicenseCacheEntry).mtime ≠ (5 : Int)) :=
  ⟨by decide, by decide⟩

/-- Claim C6 (amended): for the license-header cache manager, lookup
returns absent iff caching is disabled, no entry exists, the fresh stat
fails, the stored mtime differs from the current one, or the stored
status string is unrecognized; an entry with a recognized status is
served exactly when the mtime matches.  The lint cache manager, by
contrast, can never serve: whenever an entry passes the mtime check, the
construction of its `status_map` evaluates the non-existent
`FileStatus.WARNING` and raises `AttributeError("WARNING")`. -/
theorem C6_cache_lookup_amended (enabled : Bool) (entry : Option LicenseCacheEntry)
    (statMtime : Option Int) (fp : String) (e : LintCacheEntry) (m : Int)
    (fp2 : String) :
    (license_get_cached_result enabled entry statMtime fp = none ↔
      (enabled = false ∨ entry = none ∨ statMtime = none ∨
       (∃ ent mt, entry = some ent ∧ statMtime = some mt ∧ ent.mtime ≠ mt) ∨
       (∃ ent, entry = some ent ∧
         ent.status ∉ (["ok", "missing", "incorrect", "error"] : List String)))) ∧
    (lint_get_cached_result true (some e) (some m) fp2
      = if e.mtime = m then .error "WARNING" else .ok none) := by
  constructor
  · rw [license_get_cached_result.eq_def]
    cases enabled with
    | false => simp
    | true =>
      simp only [Bool.not_true, Bool.false_eq_true, if_false]
      cases entry with
      | none => simp
      | some ent =>
        cases statMtime with
        | none => simp
        | some mt =>
          simp only [Option.some.injEq, reduceCtorEq, false_or]
          by_cases hmt : ent.mtime = mt
          · rw [if_neg (by simp [hmt])]
            by_cases h1 : ent.status = "ok"
            · simp [h1, hmt]
            · by_cases h2 : ent.status = "missing"
              · simp [h1, h2, hmt]
              · by_cases h3 : ent.status = "incorrect"
                · simp [h1, h2, h3, hmt]
                · by_cases h4 : ent.status = "error"
                  · simp [h1, h2, h3, h4, hmt]
                  · simp [h1, h2, h3, h4, hmt]
          · rw [if_pos (by simp [hmt])]
            simp only [true_iff]
            refine Or.inl ⟨ent, mt, rfl, rfl, hmt⟩
  · rw [lint_get_cached_result.eq_def]
    by_cases hmt : e.mtime = m
    · simp [hmt]
    · simp [hmt]

/-- Claim C7 (counterexample): `save_cache` with caching enabled raises
`OSError` out of the flush when the parent-directory creation fails,
because `mkdir` is executed before the `try` block — contradicting the
claim that any I/O failure during flushing is swallowed. -/
theorem C7_mkdir_failure_raises :
    save_cache true ⟨true, false, false, false⟩ = .error "OSError" ∧
    ¬∃ r, save_cache true ⟨true, false, false, false⟩ = .ok r := by
  refine ⟨by decide, ?_⟩
  rintro ⟨r, hr⟩
  rw [show save_cache true ⟨true, false, false, false⟩ = .error "OSError" from by decide] at hr
  cases hr

/-- Claim C7 (amended): flush is a no-op when caching is disabled;
failures of the temp-file write or of the atomic rename are caught, the
temp file is removed when present, and the error is swallowed — but the
parent-directory creation runs outside the handler, so flush raises
exactly when caching is enabled and `mkdir` fails. -/
theorem C7_flush_amended (env : FlushEnv) (d r t : Bool) :
    (save_cache false env = .ok .noop) ∧
    ((∃ msg, save_cache true env = .error msg) ↔ env.mkdirRaises = true) ∧
    (save_cache true ⟨false, d, r, t⟩
      = .ok (if d || r then (if t then .cleanedTemp else .swallowed) else .saved)) := by
  refine ⟨by rw [save_cache]; rfl, ?_, ?_⟩
  · cases hmk : env.mkdirRaises with
    | true =>
      simp only [iff_true]
      exact ⟨"OSError", by rw [save_cache, hmk]; rfl⟩
    | false =>
      simp only [Bool.false_eq_true, iff_false]
      rintro ⟨msg, hmsg⟩
      rw [save_cache, hmk] at hmsg
      by_cases hd : env.dumpRaises || env.replaceRaises
      · rw [if_neg (by simp), if_pos hd] at hmsg
        cases hmsg
      · rw [if_neg (by simp), if_neg hd] at hmsg
        cases hmsg
  · cases d <;> cases r <;> cases t <;> decide

/-- Claim C8 (counterexample): a fix run in which a fixable issue's fix
invocation fails (fix subprocess exits 1) yields a "partial" outcome: the
fixable issue remains unresolved, yet no error is recorded, so the run
exits 0 — whereas the claim's success criterion ("exit 0 exactly when all
fixable issues were resolved with zero tool errors") demands exit 1. -/
theorem C8_unresolved_fix_exits_zero :
    fix_outcome (fix_single_file_loop "C/C++" [] "src/a.cpp"
        [⟨tidyStep, .ok ⟨1, "bad style\n", ""⟩, .ok ⟨1, "", ""⟩⟩] {}) = "partial" ∧
    all_fixable_resolved "partial" = false ∧
    fix_record {} "partial" = ⟨1, 0, 0, 0, 0, 0, 1⟩ ∧
    fix_exit_code ⟨1, 0, 0, 0, 0, 0, 1⟩ = 0 ∧
    spec_fix_exit (all_fixable_resolved "partial") ⟨1, 0, 0, 0, 0, 0, 1⟩ = 1 :=
  ⟨by decide, by decide, by decide, by decide, by decide⟩

/-- Claim C8 (amended): `has_failures` is true iff issues > 0 or
errors > 0, and a check-mode run exits 0 exactly when it reports no
failure; a fix-mode run, however, exits 0 exactly when zero error
outcomes were recorded — even when fixable issues remain unresolved
(partial outcomes are counted as skipped, not as errors). -/
theorem C8_exit_codes_amended (s : Statistics) :
    (s.has_failures = true ↔ (0 < s.issues ∨ 0 < s.errors)) ∧
    (check_exit_code s = 0 ↔ s.has_failures = false) ∧
    (fix_exit_code s = 0 ↔ s.errors = 0) := by
  refine ⟨?_, ?_, ?_⟩
  · rw [Statistics.has_failures]
    simp [Nat.pos_iff_ne_zero]
  · rw [check_exit_code]
    by_cases h : s.has_failures <;> simp [h]
  · rw [fix_exit_code]
    by_cases h : 0 < s.errors
    · rw [if_pos h]
      simp
      omega
    · rw [if_neg h]
      have : s.errors = 0 := by omega
      by_cases hf : 0 < s.fixed <;> simp [hf, this]

/-- Claim C9 (counterexample): fix is not idempotent when a shebang line
lacks its trailing newline.  On the one-line file `"#!/bin/sh"` (no final
newline) the first fix run reports FIXED and writes the header directly
after the unterminated shebang, merging both into one line; the second
run then finds a malformed header, reports FIXED again (not SKIP) and
modifies the file a second time. -/
theorem C9_shebang_without_newline :
    license_fix_single_file "#!/bin/sh".toList [['#', ' ', 'H', '\n'], ['\n']]
      = ("fixed", "#!/bin/sh# H\n\n".toList) ∧
    license_fix_single_file "#!/bin/sh# H\n\n".toList [['#', ' ', 'H', '\n'], ['\n']]
      = ("fixed", "#!/bin/sh# H\n# H\n\n\n".toList) ∧
    ("fixed" : String) ≠ "skip" ∧
    "#!/bin/sh# H\n# H\n\n\n".toList ≠ "#!/bin/sh# H\n\n".toList :=
  ⟨by decide, by decide, by decide, by decide⟩

/-- Claim C9 (amended): fix is idempotent provided the header lines are
newline-terminated (true of the repository's generators), the header does
not itself start with "#!", and the file's shebang line — when present —
carries its trailing newline: after any first fix run, a second run finds
the expected header in place, performs no write, and reports SKIP with
the content unchanged. -/
theorem C9_fix_idempotent_amended (content : List Char) (hdr : List Line)
    (hhdr : ∀ l ∈ hdr, properLine l = true)
    (hnos : headerNoShebang hdr = true)
    (hsheb : shebangTerminated content = true) :
    license_fix_single_file (license_fix_single_file content hdr).2 hdr
      = ("skip", (license_fix_single_file content hdr).2) := by
  by_cases hok : has_correct_license_header content hdr = .ok
  · have h1 : license_fix_single_file content hdr = ("skip", content) := by
      rw [license_fix_single_file.eq_def, hok]
    rw [h1]
    rw [license_fix_single_file.eq_def, hok]
  · have hw := fix_header_writes content hdr hok
    have h1 : license_fix_single_file content hdr
        = ("fixed", writelines
            ((readlines content).take (headerOffset (readlines content)) ++ hdr ++
             (readlines content).drop (headerOffset (readlines content)))) := by
      rw [license_fix_single_file.eq_def]
      cases hv : has_correct_license_header content hdr with
      | ok => exact absurd hv hok
      | missing => rw [hw]
      | incorrect => rw [hw]
    rw [h1]
    have h2 := has_correct_after_fix content hdr hhdr hnos hsheb
    rw [license_fix_single_file.eq_def]
    dsimp only
    rw [h2]

/-- Claim C9 (witness for the amended theorem). -/
theorem C9_fix_idempotent_amended_witness :
    ((∀ l ∈ ([['#', ' ', 'H', '\n'], ['\n']] : List Line), properLine l = true) ∧
     headerNoShebang [['#', ' ', 'H', '\n'], ['\n']] = true ∧
     shebangTerminated "x = 1".toList = true) ∧
    license_fix_single_file
        (license_fix_single_file "x = 1".toList [['#', ' ', 'H', '\n'], ['\n']]).2
        [['#', ' ', 'H', '\n'], ['\n']]
      = ("skip",
         (license_fix_single_file "x = 1".toList [['#', ' ', 'H', '\n'], ['\n']]).2) :=
  ⟨⟨by decide, by decide, by decide⟩,
    C9_fix_idempotent_amended "x = 1".toList [['#', ' ', 'H', '\n'], ['\n']]
      (by decide) (by decide) (by decide)⟩

/-- Claim C10 (counterexample): a successful fix does not always preserve
the shebang line verbatim as the first line.  On the file `"#!a"` (a
shebang with no trailing newline) `fix_header` writes the header directly
after the unterminated shebang, so the first line of the resulting file
is the merged `"#!a# L\n"` rather than the original shebang. -/
theorem C10_shebang_merged :
    fix_header "#!a".toList [['#', ' ', 'L', '\n'], ['\n']]
      = some "#!a# L\n\n".toList ∧
    readlines "#!a".toList = ["#!a".toList] ∧
    isShebang "#!a".toList = true ∧
    (readlines "#!a# L\n\n".toList).head? = some "#!a# L\n".toList ∧
    some "#!a# L\n".toList ≠ some ("#!a".toList) :=
  ⟨by decide, by decide, by decide, by decide, by decide⟩

/-- Claim C10 (amended): when `fix_header` writes (returns a new
content), and the header lines are newline-terminated, and the file's
shebang line — when present — carries its trailing newline, the written
file's lines are exactly: the original shebang line (when present)
verbatim, then the generated header, then every original line after the
shebang unchanged and in order (an existing incorrect header included,
preceded — not removed).  The written bytes are the concatenation of
those three groups. -/
theorem C10_fix_header_frame_amended (content : List Char) (hdr : List Line)
    (newContent : List Char)
    (hfix : fix_header content hdr = some newContent)
    (hhdr : ∀ l ∈ hdr, properLine l = true)
    (hsheb : shebangTerminated content = true) :
    newContent = writelines
      ((readlines content).take (headerOffset (readlines content)) ++ hdr ++
       (readlines content).drop (headerOffset (readlines content))) ∧
    readlines newContent
      = (readlines content).take (headerOffset (readlines content)) ++ hdr ++
        (readlines content).drop (headerOffset (readlines content)) := by
  have h1 : newContent = writelines
      ((readlines content).take (headerOffset (readlines content)) ++ hdr ++
       (readlines content).drop (headerOffset (readlines content))) := by
    rw [fix_header] at hfix
    split at hfix
    · cases hfix
    · exact (Option.some.inj hfix).symm
  refine ⟨h1, ?_⟩
  rw [h1]
  exact readlines_fix_result content hdr hhdr hsheb

/-- Claim C10 (witness for the amended theorem). -/
theorem C10_fix_header_frame_amended_witness :
    (fix_header "x\n".toList [['#', ' ', 'L', '\n'], ['\n']]
        = some "# L\n\nx\n".toList ∧
     (∀ l ∈ ([['#', ' ', 'L', '\n'], ['\n']] : List Line), properLine l = true) ∧
     shebangTerminated "x\n".toList = true) ∧
    ("# L\n\nx\n".toList = writelines
      ((readlines "x\n".toList).take (headerOffset (readlines "x\n".toList)) ++
       [['#', ' ', 'L', '\n'], ['\n']] ++
       (readlines "x\n".toList).drop (headerOffset (readlines "x\n".toList))) ∧
     readlines "# L\n\nx\n".toList
      = (readlines "x\n".toList).take (headerOffset (readlines "x\n".toList)) ++
        [['#', ' ', 'L', '\n'], ['\n']] ++
        (readlines "x\n".toList).drop (headerOffset (readlines "x\n".toList))) :=
  ⟨⟨by decide, by decide, by decide⟩,
    C10_fix_header_frame_amended "x\n".toList [['#', ' ', 'L', '\n'], ['\n']]
      "# L\n\nx\n".toList (by decide) (by decide) (by decide)⟩

end Devutils
